import Mathlib

/-!
# Verification of the Stellara advanced token contract

Shallow embedding of `contracts/token/src` (the authoritative NFT/SFT ledger
with its pausable / royalty / whitelist extensions; the unintegrated
fungible-token sketch in `nft.rs`, `semi_fungible.rs`, `state.rs`, `msg.rs`,
`storage.rs` is excluded, as the spec excludes it).

Modelling notes.
* The Soroban key-value storage is modelled as a record with one field per
  `StorageKey` variant; a field stores `Option v` mirroring `get` returning
  an optional value, with every `unwrap_or` default made explicit at its use
  site, exactly as in the source.
* Addresses are atoms (`Addr := Nat`); `u64`/`u32` quantities are `Nat` with
  exact arithmetic.  The repository ships no build profile fixing the
  behaviour of an overflowing native addition (trap vs. wrap), and the spec
  leaves overflow explicitly unresolved, so the development models the
  overflow-free executions, which is where every property below lives.
* A Rust `panic!(code)` aborts the whole invocation and the host discards all
  writes buffered since entry.  Operations therefore return
  `Except TokenError σ`, and `commit s r` is the state observable after the
  invocation: the new state on success, the entry state `s` on abort.
* Event emission carries no ledger state and is elided.
* `require_auth` (signature authorization) is resolved by the host before the
  body runs and is elided; admin-gated entry points take the authenticated
  caller explicitly and run the admin check.
-/

/-- Addresses are opaque atoms. -/
abbrev Addr := Nat

/-- Error codes of `errors.rs` (`TokenError`). -/
inductive TokenError : Type
  | NotInitialized
  | AlreadyInitialized
  | Unauthorized
  | Paused
  | NftNotFound
  | NftNotOwner
  | NftNotApproved
  | SftClassNotFound
  | SftInsufficientBalance
  | SftMaxSupplyExceeded
  | SftBatchLengthMismatch
  | NotWhitelisted
  | InvalidBasisPoints
  | RoyaltyNotSet
  deriving DecidableEq, Repr

/-- The contract's persistent key space: one field per `StorageKey` variant of
`storage_types.rs`.  `none` means the key is absent from storage. -/
structure TokenState : Type where
  admin : Option Addr
  name : Option String
  symbol : Option String
  paused : Option Bool
  nftCounter : Option Nat
  nftOwner : Nat → Option Addr
  nftUri : Nat → Option String
  nftApproved : Nat → Option Addr
  nftBalance : Addr → Option Nat
  sftClassCounter : Option Nat
  sftClassUri : Nat → Option String
  sftClassName : Nat → Option String
  sftClassMaxSupply : Nat → Option Nat
  sftClassSupply : Nat → Option Nat
  sftBalance : Addr → Nat → Option Nat
  whitelistEnabled : Option Bool
  whitelisted : Addr → Option Bool
  royaltyReceiver : Option Addr
  royaltyBasisPoints : Option Nat

/-- Entirely empty storage (the state of a fresh deployment). -/
def emptyState : TokenState where
  admin := none
  name := none
  symbol := none
  paused := none
  nftCounter := none
  nftOwner := fun _ => none
  nftUri := fun _ => none
  nftApproved := fun _ => none
  nftBalance := fun _ => none
  sftClassCounter := none
  sftClassUri := fun _ => none
  sftClassName := fun _ => none
  sftClassMaxSupply := fun _ => none
  sftClassSupply := fun _ => none
  sftBalance := fun _ _ => none
  whitelistEnabled := none
  whitelisted := fun _ => none
  royaltyReceiver := none
  royaltyBasisPoints := none

/-- The host's transactional boundary (spec §5): a successful invocation
commits its writes; an aborted one leaves the entry state observable. -/
def commit (s : TokenState) : Except TokenError TokenState → TokenState
  | .ok t => t
  | .error _ => s

/-- Whether an invocation succeeded. -/
def exceptOk {α : Type} : Except TokenError α → Bool
  | .ok _ => true
  | .error _ => false

-- ─── extensions/pausable.rs ──────────────────────────────────────────────

def PausableImpl.pause (s : TokenState) : TokenState :=
  { s with paused := some true }

def PausableImpl.unpause (s : TokenState) : TokenState :=
  { s with paused := some false }

def PausableImpl.is_paused (s : TokenState) : Bool :=
  s.paused.getD false

/-- `require_not_paused`: panics with `Paused` when transfers are paused. -/
def pausable.require_not_paused (s : TokenState) : Except TokenError Unit :=
  if PausableImpl.is_paused s then .error .Paused else .ok ()

-- ─── extensions/whitelist.rs ─────────────────────────────────────────────

def WhitelistImpl.enable (s : TokenState) : TokenState :=
  { s with whitelistEnabled := some true }

def WhitelistImpl.disable (s : TokenState) : TokenState :=
  { s with whitelistEnabled := some false }

def WhitelistImpl.add (s : TokenState) (addr : Addr) : TokenState :=
  { s with whitelisted := fun a => if a = addr then some true else s.whitelisted a }

def WhitelistImpl.remove (s : TokenState) (addr : Addr) : TokenState :=
  { s with whitelisted := fun a => if a = addr then none else s.whitelisted a }

def WhitelistImpl.is_whitelisted (s : TokenState) (addr : Addr) : Bool :=
  (s.whitelisted addr).getD false

/-- Whether the whitelist feature is currently active. -/
def whitelist.is_enabled (s : TokenState) : Bool :=
  s.whitelistEnabled.getD false

/-- Panic if `addr` is not on the whitelist. -/
def whitelist.require_whitelisted (s : TokenState) (addr : Addr) :
    Except TokenError Unit :=
  if WhitelistImpl.is_whitelisted s addr then .ok ()
  else .error .NotWhitelisted

-- ─── extensions/royalty.rs ───────────────────────────────────────────────

def RoyaltyImpl.set_royalty (s : TokenState) (receiver : Addr)
    (basis_points : Nat) : Except TokenError TokenState :=
  if basis_points > 10000 then .error .InvalidBasisPoints
  else .ok { s with royaltyReceiver := some receiver,
                    royaltyBasisPoints := some basis_points }

def RoyaltyImpl.get_royalty (s : TokenState) : Except TokenError (Addr × Nat) :=
  match s.royaltyReceiver with
  | none => .error .RoyaltyNotSet
  | some receiver => .ok (receiver, s.royaltyBasisPoints.getD 0)

def RoyaltyImpl.calculate (s : TokenState) (sale_price : Nat) : Nat :=
  (sale_price * s.royaltyBasisPoints.getD 0) / 10000

-- ─── contract.rs: NftImpl ────────────────────────────────────────────────

/-- `NftImpl::mint`: allocate the next token id, store owner and uri, bump
the recipient balance and the counter.  Never fails. -/
def NftImpl.mint (s : TokenState) (dst : Addr) (uri : String) :
    Nat × TokenState :=
  let token_id := s.nftCounter.getD 0
  let s1 := { s with
    nftOwner := fun t => if t = token_id then some dst else s.nftOwner t,
    nftUri := fun t => if t = token_id then some uri else s.nftUri t }
  let balance := (s1.nftBalance dst).getD 0
  let s2 := { s1 with
    nftBalance := fun a => if a = dst then some (balance + 1) else s1.nftBalance a,
    nftCounter := some (token_id + 1) }
  (token_id, s2)

/-- `NftImpl::do_transfer`: reassign the owner, decrement the sender balance
(saturating), increment the receiver balance. -/
def NftImpl.do_transfer (s : TokenState) (fr dst : Addr) (token_id : Nat) :
    TokenState :=
  let s1 := { s with
    nftOwner := fun t => if t = token_id then some dst else s.nftOwner t }
  let from_balance := (s1.nftBalance fr).getD 0
  let s2 := { s1 with
    nftBalance := fun a => if a = fr then some (from_balance - 1) else s1.nftBalance a }
  let to_balance := (s2.nftBalance dst).getD 0
  { s2 with
    nftBalance := fun a => if a = dst then some (to_balance + 1) else s2.nftBalance a }

/-- `NftImpl::transfer`: caller must be the owner. -/
def NftImpl.transfer (s : TokenState) (fr dst : Addr) (token_id : Nat) :
    Except TokenError TokenState :=
  match s.nftOwner token_id with
  | none => .error .NftNotFound
  | some owner =>
    if owner = fr then .ok (NftImpl.do_transfer s fr dst token_id)
    else .error .NftNotOwner

/-- `NftImpl::transfer_from`: owner check, approval check, clear the
approval, then transfer. -/
def NftImpl.transfer_from (s : TokenState) (spender fr dst : Addr)
    (token_id : Nat) : Except TokenError TokenState :=
  match s.nftOwner token_id with
  | none => .error .NftNotFound
  | some owner =>
    if owner = fr then
      match s.nftApproved token_id with
      | some a =>
        if a = spender then
          let s1 := { s with
            nftApproved := fun t => if t = token_id then none else s.nftApproved t }
          .ok (NftImpl.do_transfer s1 fr dst token_id)
        else .error .NftNotApproved
      | none => .error .NftNotApproved
    else .error .NftNotOwner

/-- `NftImpl::approve`: single approval slot, overwritten on each call. -/
def NftImpl.approve (s : TokenState) (owner approved : Addr) (token_id : Nat) :
    Except TokenError TokenState :=
  match s.nftOwner token_id with
  | none => .error .NftNotFound
  | some actual_owner =>
    if actual_owner = owner then
      .ok { s with
        nftApproved := fun t => if t = token_id then some approved else s.nftApproved t }
    else .error .NftNotOwner

/-- `NftImpl::burn`: clear owner, uri and approval, decrement the balance
(saturating). -/
def NftImpl.burn (s : TokenState) (fr : Addr) (token_id : Nat) :
    Except TokenError TokenState :=
  match s.nftOwner token_id with
  | none => .error .NftNotFound
  | some owner =>
    if owner = fr then
      let s1 := { s with
        nftOwner := fun t => if t = token_id then none else s.nftOwner t,
        nftUri := fun t => if t = token_id then none else s.nftUri t,
        nftApproved := fun t => if t = token_id then none else s.nftApproved t }
      let balance := (s1.nftBalance fr).getD 0
      .ok { s1 with
        nftBalance := fun a => if a = fr then some (balance - 1) else s1.nftBalance a }
    else .error .NftNotOwner

def NftImpl.owner_of (s : TokenState) (token_id : Nat) : Except TokenError Addr :=
  match s.nftOwner token_id with
  | none => .error .NftNotFound
  | some owner => .ok owner

def NftImpl.token_uri (s : TokenState) (token_id : Nat) :
    Except TokenError String :=
  match s.nftUri token_id with
  | none => .error .NftNotFound
  | some uri => .ok uri

def NftImpl.balance_of (s : TokenState) (owner : Addr) : Nat :=
  (s.nftBalance owner).getD 0

def NftImpl.total_supply (s : TokenState) : Nat :=
  s.nftCounter.getD 0

-- ─── semi_fungible/contract.rs: SftImpl ──────────────────────────────────

/-- `SftImpl::create_class`: allocate the next class id and store its
metadata with supply 0. -/
def SftImpl.create_class (s : TokenState) (name uri : String)
    (max_supply : Nat) : Nat × TokenState :=
  let class_id := s.sftClassCounter.getD 0
  (class_id,
   { s with
     sftClassName := fun c => if c = class_id then some name else s.sftClassName c,
     sftClassUri := fun c => if c = class_id then some uri else s.sftClassUri c,
     sftClassMaxSupply := fun c => if c = class_id then some max_supply else s.sftClassMaxSupply c,
     sftClassSupply := fun c => if c = class_id then some 0 else s.sftClassSupply c,
     sftClassCounter := some (class_id + 1) })

/-- `SftImpl::require_class_exists`: the class uri key is the canonical
existence marker. -/
def SftImpl.class_exists (s : TokenState) (class_id : Nat) : Bool :=
  (s.sftClassUri class_id).isSome

/-- `SftImpl::mint`: cap-checked mint (`max_supply = 0` means unlimited; an
absent max-supply key reads as `u64::MAX`, i.e. unlimited in the
overflow-free fragment). -/
def SftImpl.mint (s : TokenState) (dst : Addr) (class_id amount : Nat) :
    Except TokenError TokenState :=
  if SftImpl.class_exists s class_id then
    let current_supply := (s.sftClassSupply class_id).getD 0
    let max_supply := (s.sftClassMaxSupply class_id).getD (2 ^ 64 - 1)
    if max_supply > 0 ∧ current_supply + amount > max_supply then
      .error .SftMaxSupplyExceeded
    else
      let s1 := { s with
        sftClassSupply := fun c => if c = class_id then some (current_supply + amount) else s.sftClassSupply c }
      let balance := (s1.sftBalance dst class_id).getD 0
      .ok { s1 with
        sftBalance := fun a c => if a = dst ∧ c = class_id then some (balance + amount) else s1.sftBalance a c }
  else .error .SftClassNotFound

/-- `SftImpl::deduct_balance`: fails `SftInsufficientBalance` if the balance
is short, otherwise subtracts. -/
def SftImpl.deduct_balance (s : TokenState) (fr : Addr) (class_id amount : Nat) :
    Except TokenError TokenState :=
  let balance := (s.sftBalance fr class_id).getD 0
  if balance < amount then .error .SftInsufficientBalance
  else .ok { s with
    sftBalance := fun a c => if a = fr ∧ c = class_id then some (balance - amount) else s.sftBalance a c }

/-- `SftImpl::add_balance`. -/
def SftImpl.add_balance (s : TokenState) (dst : Addr) (class_id amount : Nat) :
    TokenState :=
  let balance := (s.sftBalance dst class_id).getD 0
  { s with
    sftBalance := fun a c => if a = dst ∧ c = class_id then some (balance + amount) else s.sftBalance a c }

/-- `SftImpl::transfer`. -/
def SftImpl.transfer (s : TokenState) (fr dst : Addr) (class_id amount : Nat) :
    Except TokenError TokenState :=
  if SftImpl.class_exists s class_id then
    match SftImpl.deduct_balance s fr class_id amount with
    | .error e => .error e
    | .ok s1 => .ok (SftImpl.add_balance s1 dst class_id amount)
  else .error .SftClassNotFound

/-- The loop body of `SftImpl::batch_transfer`, one leg per
`(class_id, amount)` pair, in sequence order. -/
def SftImpl.batch_legs (s : TokenState) (fr dst : Addr) :
    List (Nat × Nat) → Except TokenError TokenState
  | [] => .ok s
  | (class_id, amount) :: rest =>
    if SftImpl.class_exists s class_id then
      match SftImpl.deduct_balance s fr class_id amount with
      | .error e => .error e
      | .ok s1 => SftImpl.batch_legs (SftImpl.add_balance s1 dst class_id amount) fr dst rest
    else .error .SftClassNotFound

/-- `SftImpl::batch_transfer`: length check, then the legs in order. -/
def SftImpl.batch_transfer (s : TokenState) (fr dst : Addr)
    (class_ids amounts : List Nat) : Except TokenError TokenState :=
  if class_ids.length ≠ amounts.length then .error .SftBatchLengthMismatch
  else SftImpl.batch_legs s fr dst (class_ids.zip amounts)

/-- `SftImpl::burn`: deduct the balance, then decrease the class supply with
saturating subtraction. -/
def SftImpl.burn (s : TokenState) (fr : Addr) (class_id amount : Nat) :
    Except TokenError TokenState :=
  if SftImpl.class_exists s class_id then
    match SftImpl.deduct_balance s fr class_id amount with
    | .error e => .error e
    | .ok s1 =>
      let current_supply := (s1.sftClassSupply class_id).getD 0
      .ok { s1 with
        sftClassSupply := fun c => if c = class_id then some (current_supply - amount) else s1.sftClassSupply c }
  else .error .SftClassNotFound

def SftImpl.balance_of (s : TokenState) (owner : Addr) (class_id : Nat) : Nat :=
  (s.sftBalance owner class_id).getD 0

def SftImpl.class_supply (s : TokenState) (class_id : Nat) :
    Except TokenError Nat :=
  if SftImpl.class_exists s class_id then
    .ok ((s.sftClassSupply class_id).getD 0)
  else .error .SftClassNotFound

def SftImpl.class_uri (s : TokenState) (class_id : Nat) :
    Except TokenError String :=
  if SftImpl.class_exists s class_id then
    match s.sftClassUri class_id with
    | none => .error .SftClassNotFound
    | some uri => .ok uri
  else .error .SftClassNotFound

-- ─── lib.rs: AdvancedTokenContract entry points ──────────────────────────

/-- Modelled from the spec: the module `admin` (`admin.rs`,
`require_admin`) is declared by `lib.rs` but its source is not in the
repository snapshot.  Per spec §4.4, admin-gated operations fail
`Unauthorized` when the caller is not the stored admin, and the admin record
exists only after initialization. -/
def admin.require_admin (s : TokenState) (caller : Addr) :
    Except TokenError Unit :=
  match s.admin with
  | none => .error .NotInitialized
  | some a => if a = caller then .ok () else .error .Unauthorized

/-- `nft_mint` entry point: admin check, pause guard, then `NftImpl::mint`. -/
def AdvancedTokenContract.nft_mint (s : TokenState) (caller dst : Addr)
    (uri : String) : Except TokenError (Nat × TokenState) :=
  match admin.require_admin s caller with
  | .error e => .error e
  | .ok _ =>
    match pausable.require_not_paused s with
    | .error e => .error e
    | .ok _ => .ok (NftImpl.mint s dst uri)

/-- `nft_transfer` entry point: pause guard, recipient whitelist guard when
the whitelist is enabled, then `NftImpl::transfer`. -/
def AdvancedTokenContract.nft_transfer (s : TokenState) (fr dst : Addr)
    (token_id : Nat) : Except TokenError TokenState :=
  match pausable.require_not_paused s with
  | .error e => .error e
  | .ok _ =>
    if whitelist.is_enabled s then
      match whitelist.require_whitelisted s dst with
      | .error e => .error e
      | .ok _ => NftImpl.transfer s fr dst token_id
    else NftImpl.transfer s fr dst token_id

/-- `nft_approve` entry point: no pause or whitelist guard. -/
def AdvancedTokenContract.nft_approve (s : TokenState) (owner approved : Addr)
    (token_id : Nat) : Except TokenError TokenState :=
  NftImpl.approve s owner approved token_id

/-- `nft_transfer_from` entry point: pause guard only, then
`NftImpl::transfer_from`. -/
def AdvancedTokenContract.nft_transfer_from (s : TokenState)
    (spender fr dst : Addr) (token_id : Nat) : Except TokenError TokenState :=
  match pausable.require_not_paused s with
  | .error e => .error e
  | .ok _ => NftImpl.transfer_from s spender fr dst token_id

/-- `nft_burn` entry point: no pause or whitelist guard. -/
def AdvancedTokenContract.nft_burn (s : TokenState) (fr : Addr)
    (token_id : Nat) : Except TokenError TokenState :=
  NftImpl.burn s fr token_id

/-- `sft_create_class` entry point: admin check only. -/
def AdvancedTokenContract.sft_create_class (s : TokenState) (caller : Addr)
    (name uri : String) (max_supply : Nat) :
    Except TokenError (Nat × TokenState) :=
  match admin.require_admin s caller with
  | .error e => .error e
  | .ok _ => .ok (SftImpl.create_class s name uri max_supply)

/-- `sft_mint` entry point: admin check, pause guard, then `SftImpl::mint`. -/
def AdvancedTokenContract.sft_mint (s : TokenState) (caller dst : Addr)
    (class_id amount : Nat) : Except TokenError TokenState :=
  match admin.require_admin s caller with
  | .error e => .error e
  | .ok _ =>
    match pausable.require_not_paused s with
    | .error e => .error e
    | .ok _ => SftImpl.mint s dst class_id amount

/-- `sft_transfer` entry point: pause guard, recipient whitelist guard when
enabled, then `SftImpl::transfer`. -/
def AdvancedTokenContract.sft_transfer (s : TokenState) (fr dst : Addr)
    (class_id amount : Nat) : Except TokenError TokenState :=
  match pausable.require_not_paused s with
  | .error e => .error e
  | .ok _ =>
    if whitelist.is_enabled s then
      match whitelist.require_whitelisted s dst with
      | .error e => .error e
      | .ok _ => SftImpl.transfer s fr dst class_id amount
    else SftImpl.transfer s fr dst class_id amount

/-- `sft_batch_transfer` entry point: pause guard only — no whitelist
guard — then `SftImpl::batch_transfer`. -/
def AdvancedTokenContract.sft_batch_transfer (s : TokenState) (fr dst : Addr)
    (class_ids amounts : List Nat) : Except TokenError TokenState :=
  match pausable.require_not_paused s with
  | .error e => .error e
  | .ok _ => SftImpl.batch_transfer s fr dst class_ids amounts

/-- `sft_burn` entry point: no pause or whitelist guard. -/
def AdvancedTokenContract.sft_burn (s : TokenState) (fr : Addr)
    (class_id amount : Nat) : Except TokenError TokenState :=
  SftImpl.burn s fr class_id amount

/-- `set_royalty` entry point: admin check then `RoyaltyImpl::set_royalty`. -/
def AdvancedTokenContract.set_royalty (s : TokenState) (caller receiver : Addr)
    (basis_points : Nat) : Except TokenError TokenState :=
  match admin.require_admin s caller with
  | .error e => .error e
  | .ok _ => RoyaltyImpl.set_royalty s receiver basis_points

/-- `get_royalty` entry point. -/
def AdvancedTokenContract.get_royalty (s : TokenState) :
    Except TokenError (Addr × Nat) :=
  RoyaltyImpl.get_royalty s

/-- `royalty_amount` entry point. -/
def AdvancedTokenContract.royalty_amount (s : TokenState) (sale_price : Nat) :
    Nat :=
  RoyaltyImpl.calculate s sale_price

-- ─── Derived notions used by the stated properties ───────────────────────

/-- Sum of the balances of a class over a list of holders. -/
def sftBalanceSum (s : TokenState) (class_id : Nat) (holders : List Addr) : Nat :=
  (holders.map (fun a => SftImpl.balance_of s a class_id)).sum

/-- Number of token ids below the mint counter currently owned by `a`. -/
def ownedCount (s : TokenState) (a : Addr) : Nat :=
  (List.range (s.nftCounter.getD 0)).countP (fun t => decide (s.nftOwner t = some a))

/-- The NFT ledger bookkeeping invariant: every balance record counts the
tokens currently owned, and no token at or above the counter exists. -/
def NftInvariant (s : TokenState) : Prop :=
  (∀ a, NftImpl.balance_of s a = ownedCount s a) ∧
  (∀ t, s.nftCounter.getD 0 ≤ t → s.nftOwner t = none)

/-- One NFT ledger operation of the sequences of spec §8. -/
inductive NftOp : Type
  | mint (dst : Addr) (uri : String)
  | transfer (fr dst : Addr) (token_id : Nat)
  | transfer_from (spender fr dst : Addr) (token_id : Nat)
  | approve (owner approved : Addr) (token_id : Nat)
  | burn (fr : Addr) (token_id : Nat)

/-- Run one NFT operation through the host boundary (failures revert). -/
def runNftOp (s : TokenState) : NftOp → TokenState
  | .mint dst uri => (NftImpl.mint s dst uri).2
  | .transfer fr dst token_id => commit s (NftImpl.transfer s fr dst token_id)
  | .transfer_from spender fr dst token_id =>
      commit s (NftImpl.transfer_from s spender fr dst token_id)
  | .approve owner approved token_id =>
      commit s (NftImpl.approve s owner approved token_id)
  | .burn fr token_id => commit s (NftImpl.burn s fr token_id)

/-- Run a sequence of NFT operations. -/
def runNftOps (s : TokenState) (ops : List NftOp) : TokenState :=
  ops.foldl runNftOp s

/-- Number of mints in a sequence of NFT operations. -/
def countMints (ops : List NftOp) : Nat :=
  ops.countP (fun op => match op with | .mint _ _ => true | _ => false)

/-- Sequential composition of single SFT transfers, one per
`(class_id, amount)` pair, failures propagating. -/
def seqSftTransfers (fr dst : Addr) (s : TokenState) :
    List (Nat × Nat) → Except TokenError TokenState
  | [] => .ok s
  | (class_id, amount) :: rest =>
    match SftImpl.transfer s fr dst class_id amount with
    | .error e => .error e
    | .ok s1 => seqSftTransfers fr dst s1 rest

-- ─── Concrete fixtures for the witnesses ─────────────────────────────────

/-- A state with one SFT class 0 (`max_supply` 100, supply 100) fully held
by address 1; admin is address 0. -/
def classFixture : TokenState :=
  { emptyState with
    admin := some 0
    sftClassCounter := some 1
    sftClassUri := fun c => if c = 0 then some "ipfs://gold" else none
    sftClassName := fun c => if c = 0 then some "Gold" else none
    sftClassMaxSupply := fun c => if c = 0 then some 100 else none
    sftClassSupply := fun c => if c = 0 then some 100 else none
    sftBalance := fun a c => if a = 1 ∧ c = 0 then some 100 else none }

/-- A state with one NFT (token 0) owned by address 1 with spender 5
approved; admin is address 0. -/
def nftFixture : TokenState :=
  { emptyState with
    admin := some 0
    nftCounter := some 1
    nftOwner := fun t => if t = 0 then some 1 else none
    nftUri := fun t => if t = 0 then some "ipfs://1" else none
    nftApproved := fun t => if t = 0 then some 5 else none
    nftBalance := fun a => if a = 1 then some 1 else none }

-- ═════════════════════════════════════════════════════════════════════════
-- Theorems
-- ═════════════════════════════════════════════════════════════════════════

-- ─── Shared helper lemmas ────────────────────────────────────────────────

/-- Summing a list of images where `g` agrees with `f` away from one list
member `x`: the sums differ exactly by the change at `x`. -/
theorem map_sum_update (f g : Addr → Nat) (x : Addr) :
    ∀ holders : List Addr, holders.Nodup → x ∈ holders →
      (∀ b, b ≠ x → g b = f b) →
      (holders.map g).sum + f x = (holders.map f).sum + g x := by
  intro holders
  induction holders with
  | nil => intro _ hx; cases hx
  | cons b t ih =>
    intro hnd hx hfg
    rw [List.nodup_cons] at hnd
    rcases List.mem_cons.mp hx with hx | hx
    · subst hx
      have ht : t.map g = t.map f :=
        List.map_congr_left fun c hc => hfg c (fun hcx => hnd.1 (hcx ▸ hc))
      simp only [List.map_cons, List.sum_cons, ht]
      omega
    · have hbx : b ≠ x := fun h => hnd.1 (h ▸ hx)
      have := ih hnd.2 hx hfg
      simp only [List.map_cons, List.sum_cons, hfg b hbx]
      omega

/-- Counting owners over `range n` after overwriting the slot of one token
`tid < n`: the count changes exactly by the change at `tid`. -/
theorem countP_range_set (f : Nat → Option Addr) (tid : Nat) (v : Option Addr)
    (a : Addr) :
    ∀ n, tid < n →
      (List.range n).countP (fun t => decide ((if t = tid then v else f t) = some a)) +
        (if f tid = some a then 1 else 0)
      = (List.range n).countP (fun t => decide (f t = some a)) +
        (if v = some a then 1 else 0) := by
  intro n
  induction n with
  | zero => omega
  | succ m ih =>
    intro hlt
    rw [List.range_succ, List.countP_append, List.countP_append]
    by_cases hm : tid = m
    · subst hm
      have hpre : (List.range tid).countP
            (fun t => decide ((if t = tid then v else f t) = some a))
          = (List.range tid).countP (fun t => decide (f t = some a)) := by
        refine List.countP_congr fun t huri => ?_
        have : t ≠ tid := Nat.ne_of_lt (List.mem_range.mp huri)
        simp [this]
      simp only [hpre, List.countP_cons, List.countP_nil, if_pos rfl,
        decide_eq_true_eq, eq_self_iff_true, if_true]
      omega
    · have htm : tid < m := lt_of_le_of_ne (Nat.lt_succ_iff.mp hlt) hm
      have := ih htm
      have hmt : m ≠ tid := fun h => hm h.symm
      simp only [List.countP_cons, List.countP_nil, if_neg hmt]
      omega

-- ─── C6: royalty configuration and computation ───────────────────────────

/-- C6: `set_royalty(receiver, bps)` fails `InvalidBasisPoints` exactly when
`bps > 10000` and otherwise stores the pair; `get_royalty` fails
`RoyaltyNotSet` exactly when no receiver was ever stored; and
`royalty_amount(sale_price)` is the floor of
`sale_price * bps / 10000` in exact integer arithmetic (characterised by the
two division bounds), treating unset bps as 0. -/
theorem royalty_spec (s : TokenState) (receiver : Addr) (bps sale_price : Nat) :
    (RoyaltyImpl.set_royalty s receiver bps = .error .InvalidBasisPoints ↔
      10000 < bps) ∧
    (10000 < bps → commit s (RoyaltyImpl.set_royalty s receiver bps) = s) ∧
    (bps ≤ 10000 →
      (commit s (RoyaltyImpl.set_royalty s receiver bps)).royaltyReceiver
        = some receiver ∧
      (commit s (RoyaltyImpl.set_royalty s receiver bps)).royaltyBasisPoints
        = some bps) ∧
    (RoyaltyImpl.get_royalty s = .error .RoyaltyNotSet ↔
      s.royaltyReceiver = none) ∧
    10000 * RoyaltyImpl.calculate s sale_price
      ≤ sale_price * s.royaltyBasisPoints.getD 0 ∧
    sale_price * s.royaltyBasisPoints.getD 0
      < 10000 * RoyaltyImpl.calculate s sale_price + 10000 ∧
    (s.royaltyBasisPoints = none → RoyaltyImpl.calculate s sale_price = 0) := by
  refine ⟨?_, ?_, ?_, ?_, ?_, ?_, ?_⟩
  · simp only [RoyaltyImpl.set_royalty]
    split
    · next h => simp [h]
    · next h => simp [h]
  · intro h
    simp [RoyaltyImpl.set_royalty, h, commit]
  · intro h
    have hn : ¬ bps > 10000 := not_lt.mpr h
    simp [RoyaltyImpl.set_royalty, hn, commit]
  · cases hr : s.royaltyReceiver <;> simp [RoyaltyImpl.get_royalty, hr]
  · have h1 := Nat.div_add_mod (sale_price * s.royaltyBasisPoints.getD 0) 10000
    simp only [RoyaltyImpl.calculate]
    omega
  · have h1 := Nat.div_add_mod (sale_price * s.royaltyBasisPoints.getD 0) 10000
    have h2 := Nat.mod_lt (sale_price * s.royaltyBasisPoints.getD 0)
      (show 0 < 10000 by norm_num)
    simp only [RoyaltyImpl.calculate]
    omega
  · intro h
    simp [RoyaltyImpl.calculate, h]

/-- Witness for C6 at a concrete input. -/
theorem royalty_spec_witness :
    (commit emptyState (RoyaltyImpl.set_royalty emptyState 7 250)).royaltyReceiver
      = some 7 ∧
    (commit emptyState (RoyaltyImpl.set_royalty emptyState 7 250)).royaltyBasisPoints
      = some 250 :=
  (royalty_spec emptyState 7 250 0).2.2.1 (by norm_num)

-- ─── C3: SFT mint supply cap ─────────────────────────────────────────────

/-- C3: minting an existing class whose stored max supply is `M` fails
`SftMaxSupplyExceeded` exactly when `M > 0` and the new cumulative supply
would exceed `M`; the failing call leaves the observable state unchanged; a
successful mint adds `amount` to the supply; and when `M > 0` the supply
never exceeds `M` after a mint. -/
theorem sft_mint_supply_cap (s : TokenState) (dst : Addr)
    (class_id amount M : Nat)
    (hcls : SftImpl.class_exists s class_id = true)
    (hmax : s.sftClassMaxSupply class_id = some M) :
    (SftImpl.mint s dst class_id amount = .error .SftMaxSupplyExceeded ↔
      0 < M ∧ M < (s.sftClassSupply class_id).getD 0 + amount) ∧
    (0 < M ∧ M < (s.sftClassSupply class_id).getD 0 + amount →
      commit s (SftImpl.mint s dst class_id amount) = s) ∧
    (exceptOk (SftImpl.mint s dst class_id amount) = true →
      ((commit s (SftImpl.mint s dst class_id amount)).sftClassSupply class_id).getD 0
        = (s.sftClassSupply class_id).getD 0 + amount) ∧
    (0 < M → (s.sftClassSupply class_id).getD 0 ≤ M →
      ((commit s (SftImpl.mint s dst class_id amount)).sftClassSupply class_id).getD 0
        ≤ M) := by
  refine ⟨?_, ?_, ?_, ?_⟩
  · simp only [SftImpl.mint, hcls, if_true, hmax, Option.getD_some]
    split
    · next h => exact iff_of_true rfl ⟨h.1, h.2⟩
    · next h =>
      exact iff_of_false (fun hco => Except.noConfusion hco)
        (fun hc => h ⟨hc.1, hc.2⟩)
  · intro h
    simp only [SftImpl.mint, hcls, if_true, hmax, Option.getD_some]
    rw [if_pos (show M > 0 ∧ _ > M from ⟨h.1, h.2⟩)]
    rfl
  · simp only [SftImpl.mint, hcls, if_true, hmax, Option.getD_some]
    split
    · intro hok
      exact absurd hok (by simp [exceptOk])
    · intro _
      simp [commit]
  · intro hM hle
    simp only [SftImpl.mint, hcls, if_true, hmax, Option.getD_some]
    split
    · simpa [commit] using hle
    · next h =>
      have hle2 : (s.sftClassSupply class_id).getD 0 + amount ≤ M := by
        by_contra hgt
        exact h ⟨hM, by omega⟩
      simpa [commit] using hle2

/-- Witness for C3: with supply 100 of a max-100 class, minting 1 more fails
`SftMaxSupplyExceeded`. -/
theorem sft_mint_supply_cap_witness :
    SftImpl.mint classFixture 1 0 1 = .error .SftMaxSupplyExceeded :=
  (sft_mint_supply_cap classFixture 1 0 1 100 rfl rfl).1.mpr (by decide)

-- ─── C5: transfer_from requires and consumes the approval ────────────────

/-- C5: `transfer_from` succeeds exactly when `fr` is the token's current
owner and `spender` is the token's single approved address; with a correct
owner, a mismatched or absent approval fails identically with
`NftNotApproved`; a successful call clears the approval before
transferring, so a second `transfer_from` with the same spender on the same
token (from its new owner) fails `NftNotApproved`. -/
theorem nft_transfer_from_single_use (s : TokenState)
    (spender fr dst dst2 : Addr) (token_id : Nat) :
    (exceptOk (NftImpl.transfer_from s spender fr dst token_id) = true ↔
      s.nftOwner token_id = some fr ∧ s.nftApproved token_id = some spender) ∧
    (s.nftOwner token_id = some fr → s.nftApproved token_id ≠ some spender →
      NftImpl.transfer_from s spender fr dst token_id
        = .error .NftNotApproved) ∧
    (s.nftOwner token_id = some fr → s.nftApproved token_id = some spender →
      (commit s (NftImpl.transfer_from s spender fr dst token_id)).nftApproved token_id
        = none ∧
      (commit s (NftImpl.transfer_from s spender fr dst token_id)).nftOwner token_id
        = some dst ∧
      NftImpl.transfer_from
          (commit s (NftImpl.transfer_from s spender fr dst token_id))
          spender dst dst2 token_id
        = .error .NftNotApproved) := by
  refine ⟨?_, ?_, ?_⟩
  · cases howner : s.nftOwner token_id with
    | none => simp [NftImpl.transfer_from, howner, exceptOk]
    | some owner =>
      by_cases hof : owner = fr
      · subst hof
        cases happ : s.nftApproved token_id with
        | none => simp [NftImpl.transfer_from, howner, happ, exceptOk]
        | some a =>
          by_cases has : a = spender
          · subst has
            simp [NftImpl.transfer_from, howner, happ, exceptOk]
          · simp [NftImpl.transfer_from, howner, happ, exceptOk, has]
      · simp [NftImpl.transfer_from, howner, exceptOk, hof, Ne.symm hof]
  · intro hown hnapp
    cases happ : s.nftApproved token_id with
    | none => simp [NftImpl.transfer_from, hown, happ]
    | some a =>
      have has : a ≠ spender := fun h => hnapp (h ▸ happ)
      simp [NftImpl.transfer_from, hown, happ, has]
  · intro hown happ
    have hres : NftImpl.transfer_from s spender fr dst token_id
        = .ok (NftImpl.do_transfer
            { s with nftApproved := fun t => if t = token_id then none else s.nftApproved t }
            fr dst token_id) := by
      simp [NftImpl.transfer_from, hown, happ]
    rw [hres]
    refine ⟨by simp [commit, NftImpl.do_transfer], by simp [commit, NftImpl.do_transfer], ?_⟩
    simp [commit, NftImpl.transfer_from, NftImpl.do_transfer]

/-- Witness for C5: spender 5 moves token 0 from owner 1 to 2; a second
attempt fails `NftNotApproved`. -/
theorem nft_transfer_from_single_use_witness :
    (commit nftFixture (NftImpl.transfer_from nftFixture 5 1 2 0)).nftApproved 0
      = none ∧
    (commit nftFixture (NftImpl.transfer_from nftFixture 5 1 2 0)).nftOwner 0
      = some 2 ∧
    NftImpl.transfer_from
        (commit nftFixture (NftImpl.transfer_from nftFixture 5 1 2 0)) 5 2 3 0
      = .error .NftNotApproved :=
  (nft_transfer_from_single_use nftFixture 5 1 2 3 0).2.2 rfl rfl

-- ─── C10: nft_transfer_from performs no whitelist check ──────────────────

/-- C10: with the whitelist enabled and the recipient not a member, a valid
owner/approval `nft_transfer_from` still succeeds, while `nft_transfer` to
the same recipient fails `NotWhitelisted`. -/
theorem nft_transfer_from_skips_whitelist (s : TokenState)
    (spender fr dst : Addr) (token_id : Nat)
    (hp : PausableImpl.is_paused s = false)
    (hen : whitelist.is_enabled s = true)
    (hmem : WhitelistImpl.is_whitelisted s dst = false)
    (hown : s.nftOwner token_id = some fr)
    (happ : s.nftApproved token_id = some spender) :
    exceptOk (AdvancedTokenContract.nft_transfer_from s spender fr dst token_id)
      = true ∧
    AdvancedTokenContract.nft_transfer s fr dst token_id
      = .error .NotWhitelisted := by
  constructor
  · simp [AdvancedTokenContract.nft_transfer_from, pausable.require_not_paused,
      hp, NftImpl.transfer_from, hown, happ, exceptOk]
  · simp [AdvancedTokenContract.nft_transfer, pausable.require_not_paused,
      hp, hen, whitelist.require_whitelisted, hmem]

/-- Witness for C10 with the whitelist enabled on the NFT fixture. -/
theorem nft_transfer_from_skips_whitelist_witness :
    exceptOk (AdvancedTokenContract.nft_transfer_from
        { nftFixture with whitelistEnabled := some true } 5 1 2 0) = true ∧
    AdvancedTokenContract.nft_transfer
        { nftFixture with whitelistEnabled := some true } 1 2 0
      = .error .NotWhitelisted :=
  nft_transfer_from_skips_whitelist
    { nftFixture with whitelistEnabled := some true } 5 1 2 0
    rfl rfl rfl rfl rfl

-- ─── C7: the pause guard gates exactly the six transfer/mint paths ───────

/-- C7: when the pause flag is set, `nft_mint`, `nft_transfer`,
`nft_transfer_from`, `sft_mint`, `sft_transfer` and `sft_batch_transfer`
all fail `Paused` (for an authorized caller), while `nft_burn`, `sft_burn`
and `nft_approve` never consult the flag: they equal the unguarded core
operations and succeed while paused whenever their own preconditions
hold. -/
theorem pause_gating (s : TokenState) (caller dst fr spender owner approved : Addr)
    (uri : String) (token_id class_id amount : Nat)
    (class_ids amounts : List Nat)
    (hp : PausableImpl.is_paused s = true)
    (hadmin : s.admin = some caller) :
    AdvancedTokenContract.nft_mint s caller dst uri = .error .Paused ∧
    AdvancedTokenContract.nft_transfer s fr dst token_id = .error .Paused ∧
    AdvancedTokenContract.nft_transfer_from s spender fr dst token_id
      = .error .Paused ∧
    AdvancedTokenContract.sft_mint s caller dst class_id amount
      = .error .Paused ∧
    AdvancedTokenContract.sft_transfer s fr dst class_id amount
      = .error .Paused ∧
    AdvancedTokenContract.sft_batch_transfer s fr dst class_ids amounts
      = .error .Paused ∧
    AdvancedTokenContract.nft_burn s fr token_id = NftImpl.burn s fr token_id ∧
    AdvancedTokenContract.sft_burn s fr class_id amount
      = SftImpl.burn s fr class_id amount ∧
    AdvancedTokenContract.nft_approve s owner approved token_id
      = NftImpl.approve s owner approved token_id ∧
    (s.nftOwner token_id = some fr →
      exceptOk (AdvancedTokenContract.nft_burn s fr token_id) = true) ∧
    (SftImpl.class_exists s class_id = true →
      amount ≤ SftImpl.balance_of s fr class_id →
      exceptOk (AdvancedTokenContract.sft_burn s fr class_id amount) = true) ∧
    (s.nftOwner token_id = some owner →
      exceptOk (AdvancedTokenContract.nft_approve s owner approved token_id)
        = true) := by
  refine ⟨?_, ?_, ?_, ?_, ?_, ?_, rfl, rfl, rfl, ?_, ?_, ?_⟩
  · simp [AdvancedTokenContract.nft_mint, admin.require_admin, hadmin,
      pausable.require_not_paused, hp]
  · simp [AdvancedTokenContract.nft_transfer, pausable.require_not_paused, hp]
  · simp [AdvancedTokenContract.nft_transfer_from,
      pausable.require_not_paused, hp]
  · simp [AdvancedTokenContract.sft_mint, admin.require_admin, hadmin,
      pausable.require_not_paused, hp]
  · simp [AdvancedTokenContract.sft_transfer, pausable.require_not_paused, hp]
  · simp [AdvancedTokenContract.sft_batch_transfer,
      pausable.require_not_paused, hp]
  · intro hown
    simp [AdvancedTokenContract.nft_burn, NftImpl.burn, hown, exceptOk]
  · intro hcls hbal
    simp only [SftImpl.balance_of] at hbal
    simp [AdvancedTokenContract.sft_burn, SftImpl.burn, hcls,
      SftImpl.deduct_balance, Nat.not_lt.mpr hbal, exceptOk]
  · intro hown2
    simp [AdvancedTokenContract.nft_approve, NftImpl.approve, hown2, exceptOk]

/-- Witness for C7: while paused, minting fails `Paused` but burning the
existing token 0 still succeeds. -/
theorem pause_gating_witness :
    AdvancedTokenContract.nft_mint { nftFixture with paused := some true } 0 2
        "ipfs://2" = .error .Paused ∧
    exceptOk (AdvancedTokenContract.nft_burn
        { nftFixture with paused := some true } 1 0) = true :=
  ⟨(pause_gating { nftFixture with paused := some true } 0 2 1 5 1 5
      "ipfs://2" 0 0 1 [] [] rfl rfl).1,
   (pause_gating { nftFixture with paused := some true } 0 2 1 5 1 5
      "ipfs://2" 0 0 1 [] [] rfl rfl).2.2.2.2.2.2.2.2.2.1 rfl⟩

-- ─── C8: the whitelist guard gates exactly the two single transfers ──────

/-- C8: with the whitelist enabled and the recipient not a member, only
`nft_transfer` and `sft_transfer` fail `NotWhitelisted`;
`sft_batch_transfer`, `nft_mint`, `sft_mint`, `nft_burn` and `sft_burn`
perform no whitelist check (they equal the merely pause/admin-guarded core
calls) and succeed regardless of membership whenever their own
preconditions hold. -/
theorem whitelist_gating (s : TokenState) (caller fr dst : Addr)
    (uri : String) (token_id class_id amount : Nat)
    (class_ids amounts : List Nat)
    (hp : PausableImpl.is_paused s = false)
    (hen : whitelist.is_enabled s = true)
    (hmem : WhitelistImpl.is_whitelisted s dst = false)
    (hadmin : s.admin = some caller) :
    AdvancedTokenContract.nft_transfer s fr dst token_id
      = .error .NotWhitelisted ∧
    AdvancedTokenContract.sft_transfer s fr dst class_id amount
      = .error .NotWhitelisted ∧
    AdvancedTokenContract.sft_batch_transfer s fr dst class_ids amounts
      = SftImpl.batch_transfer s fr dst class_ids amounts ∧
    exceptOk (AdvancedTokenContract.nft_mint s caller dst uri) = true ∧
    AdvancedTokenContract.sft_mint s caller dst class_id amount
      = SftImpl.mint s dst class_id amount ∧
    (SftImpl.class_exists s class_id = true →
      amount ≤ SftImpl.balance_of s fr class_id →
      exceptOk (AdvancedTokenContract.sft_batch_transfer s fr dst
        [class_id] [amount]) = true) ∧
    AdvancedTokenContract.nft_burn s fr token_id = NftImpl.burn s fr token_id ∧
    (s.nftOwner token_id = some fr →
      exceptOk (AdvancedTokenContract.nft_burn s fr token_id) = true) ∧
    (SftImpl.class_exists s class_id = true →
      amount ≤ SftImpl.balance_of s fr class_id →
      exceptOk (AdvancedTokenContract.sft_burn s fr class_id amount)
        = true) := by
  refine ⟨?_, ?_, ?_, ?_, ?_, ?_, rfl, ?_, ?_⟩
  · simp [AdvancedTokenContract.nft_transfer, pausable.require_not_paused,
      hp, hen, whitelist.require_whitelisted, hmem]
  · simp [AdvancedTokenContract.sft_transfer, pausable.require_not_paused,
      hp, hen, whitelist.require_whitelisted, hmem]
  · simp [AdvancedTokenContract.sft_batch_transfer,
      pausable.require_not_paused, hp]
  · simp [AdvancedTokenContract.nft_mint, admin.require_admin, hadmin,
      pausable.require_not_paused, hp, exceptOk]
  · simp [AdvancedTokenContract.sft_mint, admin.require_admin, hadmin,
      pausable.require_not_paused, hp]
  · intro hcls hbal
    simp only [SftImpl.balance_of] at hbal
    simp [AdvancedTokenContract.sft_batch_transfer,
      pausable.require_not_paused, hp, SftImpl.batch_transfer,
      SftImpl.batch_legs, hcls, SftImpl.deduct_balance,
      Nat.not_lt.mpr hbal, exceptOk]
  · intro hown
    simp [AdvancedTokenContract.nft_burn, NftImpl.burn, hown, exceptOk]
  · intro hcls hbal
    simp only [SftImpl.balance_of] at hbal
    simp [AdvancedTokenContract.sft_burn, SftImpl.burn, hcls,
      SftImpl.deduct_balance, Nat.not_lt.mpr hbal, exceptOk]

/-- Witness for C8: with the whitelist on and recipient 2 not a member, a
single SFT transfer fails `NotWhitelisted` but a batch transfer of the same
leg succeeds. -/
theorem whitelist_gating_witness :
    AdvancedTokenContract.sft_transfer
        { classFixture with whitelistEnabled := some true } 1 2 0 5
      = .error .NotWhitelisted ∧
    exceptOk (AdvancedTokenContract.sft_batch_transfer
        { classFixture with whitelistEnabled := some true } 1 2 [0] [5])
      = true :=
  ⟨(whitelist_gating { classFixture with whitelistEnabled := some true }
      0 1 2 "u" 0 0 5 [] [] rfl rfl rfl rfl).2.1,
   (whitelist_gating { classFixture with whitelistEnabled := some true }
      0 1 2 "u" 0 0 5 [] [] rfl rfl rfl rfl).2.2.2.2.2.1 rfl (by decide)⟩

-- ─── C9: exact effect and frame of a successful NFT transfer ─────────────

/-- C9: a successful `transfer(fr, dst, token_id)` reassigns the token's
owner to `dst`, decrements `fr`'s balance with a floor at 0, increments
`dst`'s balance, and changes nothing else — in particular every approval
slot (including the one for `token_id`) is left unchanged, unlike
`transfer_from`, which clears it. -/
theorem nft_transfer_frame (s : TokenState) (fr dst : Addr) (token_id : Nat)
    (hown : s.nftOwner token_id = some fr) :
    exceptOk (NftImpl.transfer s fr dst token_id) = true ∧
    (commit s (NftImpl.transfer s fr dst token_id)).nftOwner token_id
      = some dst ∧
    (fr ≠ dst →
      NftImpl.balance_of (commit s (NftImpl.transfer s fr dst token_id)) fr
        = NftImpl.balance_of s fr - 1 ∧
      NftImpl.balance_of (commit s (NftImpl.transfer s fr dst token_id)) dst
        = NftImpl.balance_of s dst + 1) ∧
    (∀ t2, t2 ≠ token_id →
      (commit s (NftImpl.transfer s fr dst token_id)).nftOwner t2
        = s.nftOwner t2) ∧
    (∀ a, a ≠ fr → a ≠ dst →
      (commit s (NftImpl.transfer s fr dst token_id)).nftBalance a
        = s.nftBalance a) ∧
    (commit s (NftImpl.transfer s fr dst token_id)).nftApproved
      = s.nftApproved ∧
    (commit s (NftImpl.transfer s fr dst token_id)).nftUri = s.nftUri ∧
    (commit s (NftImpl.transfer s fr dst token_id)).nftCounter
      = s.nftCounter ∧
    (commit s (NftImpl.transfer s fr dst token_id)).admin = s.admin ∧
    (commit s (NftImpl.transfer s fr dst token_id)).name = s.name ∧
    (commit s (NftImpl.transfer s fr dst token_id)).symbol = s.symbol ∧
    (commit s (NftImpl.transfer s fr dst token_id)).paused = s.paused ∧
    (commit s (NftImpl.transfer s fr dst token_id)).sftClassCounter
      = s.sftClassCounter ∧
    (commit s (NftImpl.transfer s fr dst token_id)).sftClassUri
      = s.sftClassUri ∧
    (commit s (NftImpl.transfer s fr dst token_id)).sftClassName
      = s.sftClassName ∧
    (commit s (NftImpl.transfer s fr dst token_id)).sftClassMaxSupply
      = s.sftClassMaxSupply ∧
    (commit s (NftImpl.transfer s fr dst token_id)).sftClassSupply
      = s.sftClassSupply ∧
    (commit s (NftImpl.transfer s fr dst token_id)).sftBalance
      = s.sftBalance ∧
    (commit s (NftImpl.transfer s fr dst token_id)).whitelistEnabled
      = s.whitelistEnabled ∧
    (commit s (NftImpl.transfer s fr dst token_id)).whitelisted
      = s.whitelisted ∧
    (commit s (NftImpl.transfer s fr dst token_id)).royaltyReceiver
      = s.royaltyReceiver ∧
    (commit s (NftImpl.transfer s fr dst token_id)).royaltyBasisPoints
      = s.royaltyBasisPoints ∧
    (∀ spender, s.nftApproved token_id = some spender →
      (commit s (NftImpl.transfer_from s spender fr dst token_id)).nftApproved
          token_id = none) := by
  have hres : NftImpl.transfer s fr dst token_id
      = .ok (NftImpl.do_transfer s fr dst token_id) := by
    simp [NftImpl.transfer, hown]
  rw [hres]
  refine ⟨rfl, by simp [commit, NftImpl.do_transfer], ?_, ?_, ?_, rfl, rfl,
    rfl, rfl, rfl, rfl, rfl, rfl, rfl, rfl, rfl, rfl, rfl, rfl, rfl, rfl,
    rfl, ?_⟩
  · intro hne
    constructor
    · simp [commit, NftImpl.do_transfer, NftImpl.balance_of, hne]
    · simp [commit, NftImpl.do_transfer, NftImpl.balance_of, hne,
        Ne.symm hne]
  · intro t2 ht2
    simp [commit, NftImpl.do_transfer, ht2]
  · intro a hafr hadst
    simp [commit, NftImpl.do_transfer, hafr, hadst]
  · intro spender happ
    simp [commit, NftImpl.transfer_from, hown, happ, NftImpl.do_transfer]

/-- Witness for C9: transferring token 0 from 1 to 2 on the NFT fixture
moves ownership and leaves the approval map untouched. -/
theorem nft_transfer_frame_witness :
    (commit nftFixture (NftImpl.transfer nftFixture 1 2 0)).nftOwner 0
      = some 2 ∧
    (commit nftFixture (NftImpl.transfer nftFixture 1 2 0)).nftApproved
      = nftFixture.nftApproved :=
  ⟨(nft_transfer_frame nftFixture 1 2 0 rfl).2.1,
   (nft_transfer_frame nftFixture 1 2 0 rfl).2.2.2.2.2.1⟩

-- ─── C4: batch transfer = length check + sequential single transfers ─────

/-- The loop of `batch_transfer` is exactly the sequential composition of
single transfers, failures propagating. -/
theorem batch_legs_eq_seq (fr dst : Addr) :
    ∀ (pairs : List (Nat × Nat)) (s : TokenState),
      SftImpl.batch_legs s fr dst pairs = seqSftTransfers fr dst s pairs := by
  intro pairs
  induction pairs with
  | nil => intro s; rfl
  | cons hd rest ih =>
    intro s
    obtain ⟨c, a⟩ := hd
    simp only [SftImpl.batch_legs, seqSftTransfers, SftImpl.transfer]
    by_cases hc : SftImpl.class_exists s c = true
    · simp only [hc, if_true]
      cases hd2 : SftImpl.deduct_balance s fr c a with
      | error e => rfl
      | ok s1 => exact ih (SftImpl.add_balance s1 dst c a)
    · simp [hc]

/-- C4: `batch_transfer` fails `SftBatchLengthMismatch` whenever the two
sequences differ in length, otherwise it is the sequential application of
the single-transfer effect to each pair in order; any error (including a
failing later leg) leaves the observable state exactly the entry state. -/
theorem sft_batch_transfer_atomic (s : TokenState) (fr dst : Addr)
    (class_ids amounts : List Nat) :
    (class_ids.length ≠ amounts.length →
      SftImpl.batch_transfer s fr dst class_ids amounts
        = .error .SftBatchLengthMismatch) ∧
    (class_ids.length = amounts.length →
      SftImpl.batch_transfer s fr dst class_ids amounts
        = seqSftTransfers fr dst s (class_ids.zip amounts)) ∧
    (∀ e, SftImpl.batch_transfer s fr dst class_ids amounts = .error e →
      commit s (SftImpl.batch_transfer s fr dst class_ids amounts) = s) := by
  refine ⟨?_, ?_, ?_⟩
  · intro hne
    simp [SftImpl.batch_transfer, hne]
  · intro heq
    simp only [SftImpl.batch_transfer, heq, ne_eq, not_true_eq_false,
      if_false]
    exact batch_legs_eq_seq fr dst (class_ids.zip amounts) s
  · intro e he
    rw [he]
    rfl

/-- Witness for C4: a length mismatch fails `SftBatchLengthMismatch`, and a
batch whose second leg lacks balance (60 + 60 out of 100) leaves the state
unchanged. -/
theorem sft_batch_transfer_atomic_witness :
    SftImpl.batch_transfer classFixture 1 2 [0] []
      = .error .SftBatchLengthMismatch ∧
    commit classFixture (SftImpl.batch_transfer classFixture 1 2 [0, 0] [60, 60])
      = classFixture :=
  ⟨(sft_batch_transfer_atomic classFixture 1 2 [0] []).1 (by decide),
   (sft_batch_transfer_atomic classFixture 1 2 [0, 0] [60, 60]).2.2
     .SftInsufficientBalance rfl⟩

-- ─── C1: supply/balance conservation for the SFT ledger ──────────────────

/-- Exact effect of a successful single SFT transfer on the balance table
and the supply column. -/
theorem sft_transfer_effect (s : TokenState) (fr dst : Addr) (cid amt : Nat)
    (hc : SftImpl.class_exists s cid = true)
    (hb : ¬ (s.sftBalance fr cid).getD 0 < amt) :
    exceptOk (SftImpl.transfer s fr dst cid amt) = true ∧
    (commit s (SftImpl.transfer s fr dst cid amt)).sftClassSupply
      = s.sftClassSupply ∧
    (commit s (SftImpl.transfer s fr dst cid amt)).sftClassUri
      = s.sftClassUri ∧
    (∀ a c, c ≠ cid →
      (commit s (SftImpl.transfer s fr dst cid amt)).sftBalance a c
        = s.sftBalance a c) ∧
    (∀ a, a ≠ fr → a ≠ dst →
      (commit s (SftImpl.transfer s fr dst cid amt)).sftBalance a cid
        = s.sftBalance a cid) ∧
    (fr ≠ dst →
      ((commit s (SftImpl.transfer s fr dst cid amt)).sftBalance fr cid).getD 0
        = (s.sftBalance fr cid).getD 0 - amt) ∧
    (fr ≠ dst →
      ((commit s (SftImpl.transfer s fr dst cid amt)).sftBalance dst cid).getD 0
        = (s.sftBalance dst cid).getD 0 + amt) ∧
    (fr = dst → ∀ a,
      ((commit s (SftImpl.transfer s fr dst cid amt)).sftBalance a cid).getD 0
        = (s.sftBalance a cid).getD 0) := by
  have hres : SftImpl.transfer s fr dst cid amt
      = .ok (SftImpl.add_balance
          { s with sftBalance := fun a c =>
              if a = fr ∧ c = cid then some ((s.sftBalance fr cid).getD 0 - amt)
              else s.sftBalance a c }
          dst cid amt) := by
    simp [SftImpl.transfer, hc, SftImpl.deduct_balance, hb]
  rw [hres]
  refine ⟨rfl, rfl, rfl, ?_, ?_, ?_, ?_, ?_⟩
  · intro a c hcne
    simp [commit, SftImpl.add_balance, hcne]
  · intro a hafr hadst
    simp [commit, SftImpl.add_balance, hafr, hadst]
  · intro hne
    simp [commit, SftImpl.add_balance, hne]
  · intro hne
    simp [commit, SftImpl.add_balance, Ne.symm hne]
  · intro hfd a
    subst hfd
    by_cases ha : a = fr
    · subst ha
      simp [commit, SftImpl.add_balance]
      omega
    · simp [commit, SftImpl.add_balance, ha]

/-- A successful single transfer preserves the per-class sum of balances
over any duplicate-free holder list containing both parties. -/
theorem sft_transfer_sum (s : TokenState) (fr dst : Addr) (cid amt : Nat)
    (holders : List Addr) (hnd : holders.Nodup) (hfr : fr ∈ holders)
    (hdst : dst ∈ holders)
    (hc : SftImpl.class_exists s cid = true)
    (hb : ¬ (s.sftBalance fr cid).getD 0 < amt) :
    sftBalanceSum (commit s (SftImpl.transfer s fr dst cid amt)) cid holders
      = sftBalanceSum s cid holders := by
  obtain ⟨hok, hsup, huri, hother, hframe, hfr5, hdst6, hsame⟩ :=
    sft_transfer_effect s fr dst cid amt hc hb
  by_cases hfd : fr = dst
  · unfold sftBalanceSum
    refine congrArg List.sum (List.map_congr_left fun a _ => ?_)
    simp only [SftImpl.balance_of]
    exact hsame hfd a
  · have step1 := map_sum_update (fun a => SftImpl.balance_of s a cid)
      (fun a => if a = fr then SftImpl.balance_of s fr cid - amt
                else SftImpl.balance_of s a cid) fr holders hnd hfr
      (fun b hbne => if_neg hbne)
    have step2 := map_sum_update
      (fun a => if a = fr then SftImpl.balance_of s fr cid - amt
                else SftImpl.balance_of s a cid)
      (fun a => SftImpl.balance_of
          (commit s (SftImpl.transfer s fr dst cid amt)) a cid)
      dst holders hnd hdst
      (fun b hbne => by
        by_cases hbfr : b = fr
        · subst hbfr
          simp only [if_pos rfl, SftImpl.balance_of]
          exact hfr5 hfd
        · simp only [if_neg hbfr, SftImpl.balance_of]
          exact congrArg (fun o => Option.getD o 0) (hframe b hbfr hbne))
    have hamt : amt ≤ (s.sftBalance fr cid).getD 0 := Nat.not_lt.mp hb
    have hmem : SftImpl.balance_of s fr cid ∈
        holders.map (fun a => SftImpl.balance_of s a cid) :=
      List.mem_map_of_mem _ hfr
    have hle := List.single_le_sum
      (fun x _ => Nat.zero_le x) _ hmem
    have h6 := hdst6 hfd
    simp only [eq_self_iff_true, if_true, if_pos rfl] at step1
    simp only [if_neg (Ne.symm hfd)] at step2
    simp only [sftBalanceSum, SftImpl.balance_of] at step1 step2 hle ⊢
    rw [h6] at step2
    omega

/-- Exact effect of a successful SFT mint on supply and balances. -/
theorem sft_mint_effect (s : TokenState) (dst : Addr) (cid amt : Nat)
    (hok : exceptOk (SftImpl.mint s dst cid amt) = true) :
    ((commit s (SftImpl.mint s dst cid amt)).sftClassSupply cid).getD 0
      = (s.sftClassSupply cid).getD 0 + amt ∧
    (∀ a c, c ≠ cid →
      (commit s (SftImpl.mint s dst cid amt)).sftBalance a c
        = s.sftBalance a c) ∧
    (∀ a, a ≠ dst →
      (commit s (SftImpl.mint s dst cid amt)).sftBalance a cid
        = s.sftBalance a cid) ∧
    ((commit s (SftImpl.mint s dst cid amt)).sftBalance dst cid).getD 0
      = (s.sftBalance dst cid).getD 0 + amt := by
  cases hcb : SftImpl.class_exists s cid with
  | false => simp [SftImpl.mint, hcb, exceptOk] at hok
  | true =>
    by_cases hg : (s.sftClassMaxSupply cid).getD (2 ^ 64 - 1) > 0 ∧
        (s.sftClassSupply cid).getD 0 + amt >
          (s.sftClassMaxSupply cid).getD (2 ^ 64 - 1)
    · simp only [SftImpl.mint, hcb, if_true] at hok
      rw [if_pos hg] at hok
      simp [exceptOk] at hok
    · refine ⟨?_, ?_, ?_, ?_⟩
      · simp only [SftImpl.mint, hcb, if_true]
        rw [if_neg hg]
        simp [commit]
      · intro a c hcne
        simp only [SftImpl.mint, hcb, if_true]
        rw [if_neg hg]
        simp [commit, hcne]
      · intro a hane
        simp only [SftImpl.mint, hcb, if_true]
        rw [if_neg hg]
        simp [commit, hane]
      · simp only [SftImpl.mint, hcb, if_true]
        rw [if_neg hg]
        simp [commit]

/-- A successful mint adds `amt` to the per-class sum of balances over any
duplicate-free holder list containing the recipient. -/
theorem sft_mint_sum (s : TokenState) (dst : Addr) (cid amt : Nat)
    (holders : List Addr) (hnd : holders.Nodup) (hdst : dst ∈ holders)
    (hok : exceptOk (SftImpl.mint s dst cid amt) = true) :
    sftBalanceSum (commit s (SftImpl.mint s dst cid amt)) cid holders
      = sftBalanceSum s cid holders + amt := by
  obtain ⟨hsup, hother, hframe, hdval⟩ := sft_mint_effect s dst cid amt hok
  have step := map_sum_update (fun a => SftImpl.balance_of s a cid)
    (fun a => SftImpl.balance_of (commit s (SftImpl.mint s dst cid amt)) a cid)
    dst holders hnd hdst
    (fun b hbne => by
      simp only [SftImpl.balance_of]
      exact congrArg (fun o => Option.getD o 0) (hframe b hbne))
  simp only [sftBalanceSum, SftImpl.balance_of] at step ⊢
  omega

/-- Exact effect of a successful SFT burn on supply and balances, and the
implied sufficiency of the burned holder's balance. -/
theorem sft_burn_effect (s : TokenState) (fr : Addr) (cid amt : Nat)
    (hok : exceptOk (SftImpl.burn s fr cid amt) = true) :
    amt ≤ (s.sftBalance fr cid).getD 0 ∧
    ((commit s (SftImpl.burn s fr cid amt)).sftClassSupply cid).getD 0
      = (s.sftClassSupply cid).getD 0 - amt ∧
    (∀ a c, c ≠ cid →
      (commit s (SftImpl.burn s fr cid amt)).sftBalance a c
        = s.sftBalance a c) ∧
    (∀ a, a ≠ fr →
      (commit s (SftImpl.burn s fr cid amt)).sftBalance a cid
        = s.sftBalance a cid) ∧
    ((commit s (SftImpl.burn s fr cid amt)).sftBalance fr cid).getD 0
      = (s.sftBalance fr cid).getD 0 - amt := by
  cases hcb : SftImpl.class_exists s cid with
  | false => simp [SftImpl.burn, hcb, exceptOk] at hok
  | true =>
    by_cases hbb : (s.sftBalance fr cid).getD 0 < amt
    · simp [SftImpl.burn, hcb, SftImpl.deduct_balance, hbb, exceptOk] at hok
    · refine ⟨Nat.not_lt.mp hbb, ?_, ?_, ?_, ?_⟩
      · simp [SftImpl.burn, hcb, SftImpl.deduct_balance, hbb, commit]
      · intro a c hcne
        simp [SftImpl.burn, hcb, SftImpl.deduct_balance, hbb, commit, hcne]
      · intro a hane
        simp [SftImpl.burn, hcb, SftImpl.deduct_balance, hbb, commit, hane]
      · simp [SftImpl.burn, hcb, SftImpl.deduct_balance, hbb, commit]

/-- A successful burn removes `amt` from the per-class sum of balances over
any duplicate-free holder list containing the burned holder. -/
theorem sft_burn_sum (s : TokenState) (fr : Addr) (cid amt : Nat)
    (holders : List Addr) (hnd : holders.Nodup) (hfr : fr ∈ holders)
    (hok : exceptOk (SftImpl.burn s fr cid amt) = true) :
    sftBalanceSum (commit s (SftImpl.burn s fr cid amt)) cid holders + amt
      = sftBalanceSum s cid holders := by
  obtain ⟨hamt, hsup, hother, hframe, hfval⟩ := sft_burn_effect s fr cid amt hok
  have step := map_sum_update (fun a => SftImpl.balance_of s a cid)
    (fun a => SftImpl.balance_of (commit s (SftImpl.burn s fr cid amt)) a cid)
    fr holders hnd hfr
    (fun b hbne => by
      simp only [SftImpl.balance_of]
      exact congrArg (fun o => Option.getD o 0) (hframe b hbne))
  have hmem : SftImpl.balance_of s fr cid ∈
      holders.map (fun a => SftImpl.balance_of s a cid) :=
    List.mem_map_of_mem _ hfr
  have hle := List.single_le_sum (fun x _ => Nat.zero_le x) _ hmem
  simp only [sftBalanceSum, SftImpl.balance_of] at step hle ⊢
  omega

/-- Each successful batch run preserves the per-class balance/supply
equation, legs being applied in sequence order. -/
theorem sft_batch_legs_conserve (fr dst : Addr) (cid : Nat)
    (holders : List Addr) (hnd : holders.Nodup) (hfr : fr ∈ holders)
    (hdst : dst ∈ holders) :
    ∀ (pairs : List (Nat × Nat)) (s t : TokenState),
      SftImpl.batch_legs s fr dst pairs = .ok t →
      sftBalanceSum s cid holders = (s.sftClassSupply cid).getD 0 →
      sftBalanceSum t cid holders = (t.sftClassSupply cid).getD 0 := by
  intro pairs
  induction pairs with
  | nil =>
    intro s t hok hsum
    simp only [SftImpl.batch_legs] at hok
    injection hok with h
    exact h ▸ hsum
  | cons hd rest ih =>
    intro s t hok hsum
    obtain ⟨c, a⟩ := hd
    simp only [SftImpl.batch_legs] at hok
    by_cases hc : SftImpl.class_exists s c = true
    · rw [if_pos hc] at hok
      cases hdd : SftImpl.deduct_balance s fr c a with
      | error e => rw [hdd] at hok; exact Except.noConfusion hok
      | ok s1 =>
        rw [hdd] at hok
        have hbb : ¬ (s.sftBalance fr c).getD 0 < a := by
          intro hlt
          simp [SftImpl.deduct_balance, hlt] at hdd
        have hmid : SftImpl.add_balance s1 dst c a
            = commit s (SftImpl.transfer s fr dst c a) := by
          simp [SftImpl.transfer, hc, hdd, commit]
        refine ih (SftImpl.add_balance s1 dst c a) t hok ?_
        rw [hmid]
        by_cases hccid : c = cid
        · subst hccid
          have hpres := sft_transfer_sum s fr dst c a holders hnd hfr hdst hc hbb
          obtain ⟨_, hsup, _, _, _, _, _, _⟩ :=
            sft_transfer_effect s fr dst c a hc hbb
          rw [hpres, hsup, hsum]
        · obtain ⟨_, hsup, _, hother, _, _, _, _⟩ :=
            sft_transfer_effect s fr dst c a hc hbb
          have hpres : sftBalanceSum
              (commit s (SftImpl.transfer s fr dst c a)) cid holders
              = sftBalanceSum s cid holders := by
            unfold sftBalanceSum
            refine congrArg List.sum (List.map_congr_left fun b _ => ?_)
            simp only [SftImpl.balance_of]
            rw [hother b cid (Ne.symm hccid)]
          rw [hpres, hsup, hsum]
    · rw [if_neg hc] at hok
      exact Except.noConfusion hok

/-- C1: over any duplicate-free holder list containing the two parties, the
conservation equation "sum of balances = class supply" is preserved by every
successful mint (both sides grow by `amount`), transfer (supply unchanged,
`amount` moved from sender to receiver), batch transfer, and burn (both
sides shrink by `amount`); a transfer whose amount exceeds the sender's
balance fails `SftInsufficientBalance` and leaves the observable state
unchanged. -/
theorem sft_balance_conservation (s : TokenState) (fr dst : Addr)
    (class_id amount : Nat) (class_ids amounts : List Nat)
    (holders : List Addr) (hnd : holders.Nodup)
    (hfr : fr ∈ holders) (hdst : dst ∈ holders)
    (hsum : sftBalanceSum s class_id holders
      = (s.sftClassSupply class_id).getD 0) :
    (exceptOk (SftImpl.mint s dst class_id amount) = true →
      sftBalanceSum (commit s (SftImpl.mint s dst class_id amount))
          class_id holders
        = ((commit s (SftImpl.mint s dst class_id amount)).sftClassSupply
            class_id).getD 0 ∧
      ((commit s (SftImpl.mint s dst class_id amount)).sftClassSupply
          class_id).getD 0
        = (s.sftClassSupply class_id).getD 0 + amount) ∧
    (exceptOk (SftImpl.transfer s fr dst class_id amount) = true →
      sftBalanceSum (commit s (SftImpl.transfer s fr dst class_id amount))
          class_id holders
        = ((commit s (SftImpl.transfer s fr dst class_id amount)).sftClassSupply
            class_id).getD 0 ∧
      (commit s (SftImpl.transfer s fr dst class_id amount)).sftClassSupply
        = s.sftClassSupply ∧
      (fr ≠ dst →
        SftImpl.balance_of
            (commit s (SftImpl.transfer s fr dst class_id amount)) fr class_id
          = SftImpl.balance_of s fr class_id - amount ∧
        SftImpl.balance_of
            (commit s (SftImpl.transfer s fr dst class_id amount)) dst class_id
          = SftImpl.balance_of s dst class_id + amount)) ∧
    (SftImpl.class_exists s class_id = true →
      SftImpl.balance_of s fr class_id < amount →
      SftImpl.transfer s fr dst class_id amount
        = .error .SftInsufficientBalance ∧
      commit s (SftImpl.transfer s fr dst class_id amount) = s) ∧
    (exceptOk (SftImpl.batch_transfer s fr dst class_ids amounts) = true →
      sftBalanceSum
          (commit s (SftImpl.batch_transfer s fr dst class_ids amounts))
          class_id holders
        = ((commit s (SftImpl.batch_transfer s fr dst class_ids
            amounts)).sftClassSupply class_id).getD 0) ∧
    (exceptOk (SftImpl.burn s fr class_id amount) = true →
      sftBalanceSum (commit s (SftImpl.burn s fr class_id amount))
          class_id holders
        = ((commit s (SftImpl.burn s fr class_id amount)).sftClassSupply
            class_id).getD 0 ∧
      ((commit s (SftImpl.burn s fr class_id amount)).sftClassSupply
          class_id).getD 0
        = (s.sftClassSupply class_id).getD 0 - amount) := by
  refine ⟨?_, ?_, ?_, ?_, ?_⟩
  · intro hok
    have hs2 := sft_mint_sum s dst class_id amount holders hnd hdst hok
    have heff := (sft_mint_effect s dst class_id amount hok).1
    exact ⟨by omega, heff⟩
  · intro hok
    cases hcb : SftImpl.class_exists s class_id with
    | false => simp [SftImpl.transfer, hcb, exceptOk] at hok
    | true =>
      by_cases hbb : (s.sftBalance fr class_id).getD 0 < amount
      · simp [SftImpl.transfer, hcb, SftImpl.deduct_balance, hbb,
          exceptOk] at hok
      · have hpres := sft_transfer_sum s fr dst class_id amount holders
          hnd hfr hdst hcb hbb
        obtain ⟨_, hsup, _, _, _, hf5, hd6, _⟩ :=
          sft_transfer_effect s fr dst class_id amount hcb hbb
        refine ⟨?_, hsup, ?_⟩
        · rw [hpres, hsum, hsup]
        · intro hne
          exact ⟨hf5 hne, hd6 hne⟩
  · intro hc hlt
    simp only [SftImpl.balance_of] at hlt
    have herr : SftImpl.transfer s fr dst class_id amount
        = .error .SftInsufficientBalance := by
      simp [SftImpl.transfer, hc, SftImpl.deduct_balance, hlt]
    exact ⟨herr, by rw [herr]; rfl⟩
  · intro hok
    by_cases hlen : class_ids.length = amounts.length
    · have hbt : SftImpl.batch_transfer s fr dst class_ids amounts
          = SftImpl.batch_legs s fr dst (class_ids.zip amounts) := by
        simp [SftImpl.batch_transfer, hlen]
      rw [hbt] at hok ⊢
      cases hres : SftImpl.batch_legs s fr dst (class_ids.zip amounts) with
      | error e => rw [hres] at hok; simp [exceptOk] at hok
      | ok t =>
        simp only [commit]
        exact sft_batch_legs_conserve fr dst class_id holders hnd hfr hdst
          (class_ids.zip amounts) s t hres hsum
    · simp [SftImpl.batch_transfer, hlen, exceptOk] at hok
  · intro hok
    obtain ⟨hamt, hsup, _, _, _⟩ := sft_burn_effect s fr class_id amount hok
    have hs3 := sft_burn_sum s fr class_id amount holders hnd hfr hok
    have hmem : SftImpl.balance_of s fr class_id ∈
        holders.map (fun a => SftImpl.balance_of s a class_id) :=
      List.mem_map_of_mem _ hfr
    have hle := List.single_le_sum (fun x _ => Nat.zero_le x) _ hmem
    simp only [sftBalanceSum] at hs3 hsum ⊢
    simp only [SftImpl.balance_of] at hle hamt hs3 hsum ⊢
    refine ⟨?_, hsup⟩
    rw [hsup]
    omega

/-- Witness for C1: on the class fixture (supply 100 all held by 1), a
transfer of 40 to holder 2 keeps the sum over holders [1, 2] equal to the
class supply. -/
theorem sft_balance_conservation_witness :
    sftBalanceSum (commit classFixture (SftImpl.transfer classFixture 1 2 0 40))
        0 [1, 2]
      = ((commit classFixture
          (SftImpl.transfer classFixture 1 2 0 40)).sftClassSupply 0).getD 0 :=
  ((sft_balance_conservation classFixture 1 2 0 40 [] [] [1, 2]
    (by decide) (by decide) (by decide) (by decide)).2.1 rfl).1

-- ─── C2: NFT balance bookkeeping and mint counter ────────────────────────

/-- An owned token id lies below the mint counter whenever no token at or
above the counter exists. -/
theorem owner_lt_counter (s : TokenState) (a : Addr) (tid : Nat)
    (hub : ∀ t, s.nftCounter.getD 0 ≤ t → s.nftOwner t = none)
    (hown : s.nftOwner tid = some a) : tid < s.nftCounter.getD 0 := by
  by_contra hnot
  rw [hub tid (Nat.le_of_not_lt hnot)] at hown
  exact Option.noConfusion hown

/-- The owner of some token below the counter owns at least one token. -/
theorem ownedCount_pos (s : TokenState) (a : Addr) (tid : Nat)
    (hown : s.nftOwner tid = some a) (htid : tid < s.nftCounter.getD 0) :
    0 < ownedCount s a := by
  unfold ownedCount
  exact List.countP_pos_iff.mpr ⟨tid, List.mem_range.mpr htid, decide_eq_true hown⟩

/-- `do_transfer` preserves the NFT bookkeeping invariant when applied to
the token's actual owner. -/
theorem nftInvariant_do_transfer (s : TokenState) (fr dst : Addr) (tid : Nat)
    (hinv : NftInvariant s) (hown : s.nftOwner tid = some fr) :
    NftInvariant (NftImpl.do_transfer s fr dst tid) := by
  obtain ⟨hbal, hub⟩ := hinv
  have htid : tid < s.nftCounter.getD 0 := owner_lt_counter s fr tid hub hown
  have hfrpos : 0 < ownedCount s fr := ownedCount_pos s fr tid hown htid
  constructor
  · intro a
    by_cases hfd : fr = dst
    · subst hfd
      have hcount : ownedCount (NftImpl.do_transfer s fr fr tid) a
          = ownedCount s a := by
        unfold ownedCount
        simp only [NftImpl.do_transfer]
        refine List.countP_congr fun t _ => ?_
        by_cases ht : t = tid
        · subst ht
          simp [hown]
        · simp [ht]
      have hbalT : NftImpl.balance_of (NftImpl.do_transfer s fr fr tid) a
          = NftImpl.balance_of s a := by
        by_cases ha : a = fr
        · subst ha
          have h1 := hbal a
          simp only [NftImpl.balance_of, NftImpl.do_transfer] at h1 ⊢
          simp only [if_pos rfl, eq_self_iff_true, if_true,
            Option.getD_some]
          omega
        · simp [NftImpl.balance_of, NftImpl.do_transfer, ha]
      rw [hbalT, hcount]
      exact hbal a
    · have hset := countP_range_set s.nftOwner tid (some dst) a
        (s.nftCounter.getD 0) htid
      rw [hown] at hset
      have hcount : ownedCount (NftImpl.do_transfer s fr dst tid) a +
          (if fr = a then 1 else 0)
          = ownedCount s a + (if dst = a then 1 else 0) := by
        unfold ownedCount
        simp only [NftImpl.do_transfer]
        simpa [Option.some.injEq] using hset
      have hdf : ¬ dst = fr := fun h => hfd (Eq.symm h)
      have hb1 := hbal a
      by_cases had : a = dst
      · have hafr : ¬ a = fr := fun h => hfd ((Eq.symm h).trans had)
        have hfa : ¬ fr = a := fun h => hafr (Eq.symm h)
        have hda : dst = a := Eq.symm had
        have hbalT : NftImpl.balance_of (NftImpl.do_transfer s fr dst tid) a
            = NftImpl.balance_of s a + 1 := by
          simp only [NftImpl.balance_of, NftImpl.do_transfer]
          rw [if_pos had, if_neg hdf, Option.getD_some, had]
        rw [hbalT]
        rw [if_neg hfa, if_pos hda] at hcount
        omega
      · by_cases haf : a = fr
        · have hfa : fr = a := Eq.symm haf
          have hda : ¬ dst = a := fun h => had (Eq.symm h)
          have hbalT : NftImpl.balance_of (NftImpl.do_transfer s fr dst tid) a
              = NftImpl.balance_of s a - 1 := by
            simp only [NftImpl.balance_of, NftImpl.do_transfer]
            rw [if_neg had, if_pos haf, Option.getD_some, haf]
          have hposa : 0 < ownedCount s a := haf ▸ hfrpos
          rw [hbalT]
          rw [if_pos hfa, if_neg hda] at hcount
          omega
        · have hfa : ¬ fr = a := fun h => haf (Eq.symm h)
          have hda : ¬ dst = a := fun h => had (Eq.symm h)
          have hbalT : NftImpl.balance_of (NftImpl.do_transfer s fr dst tid) a
              = NftImpl.balance_of s a := by
            simp only [NftImpl.balance_of, NftImpl.do_transfer]
            rw [if_neg had, if_neg haf]
          rw [hbalT]
          rw [if_neg hfa, if_neg hda] at hcount
          omega
  · intro t ht
    simp only [NftImpl.do_transfer] at ht ⊢
    have htne : t ≠ tid := by
      intro h
      omega
    simp only [if_neg htne]
    exact hub t ht

/-- `mint` preserves the NFT bookkeeping invariant: the new token is owned
by the recipient, whose count and balance both grow by one. -/
theorem nftInvariant_mint (s : TokenState) (dst : Addr) (uri : String)
    (hinv : NftInvariant s) : NftInvariant (NftImpl.mint s dst uri).2 := by
  obtain ⟨hbal, hub⟩ := hinv
  constructor
  · intro a
    have hcount : ownedCount (NftImpl.mint s dst uri).2 a
        = ownedCount s a + (if dst = a then 1 else 0) := by
      unfold ownedCount
      simp only [NftImpl.mint, Option.getD_some]
      rw [List.range_succ, List.countP_append]
      have h1 : (List.range (s.nftCounter.getD 0)).countP
          (fun t => decide ((if t = s.nftCounter.getD 0 then some dst
              else s.nftOwner t) = some a))
          = (List.range (s.nftCounter.getD 0)).countP
            (fun t => decide (s.nftOwner t = some a)) := by
        refine List.countP_congr fun t htm => ?_
        have hne : t ≠ s.nftCounter.getD 0 :=
          Nat.ne_of_lt (List.mem_range.mp htm)
        simp [hne]
      rw [h1]
      simp [List.countP_cons, Option.some.injEq]
    have hb1 := hbal a
    by_cases ha : a = dst
    · have hda : dst = a := Eq.symm ha
      have hbalT : NftImpl.balance_of (NftImpl.mint s dst uri).2 a
          = NftImpl.balance_of s a + 1 := by
        simp [NftImpl.balance_of, NftImpl.mint, ha]
      rw [hbalT, hcount, if_pos hda]
      omega
    · have hda : ¬ dst = a := fun h => ha (Eq.symm h)
      have hbalT : NftImpl.balance_of (NftImpl.mint s dst uri).2 a
          = NftImpl.balance_of s a := by
        simp [NftImpl.balance_of, NftImpl.mint, ha]
      rw [hbalT, hcount, if_neg hda]
      omega
  · intro t ht
    simp only [NftImpl.mint, Option.getD_some] at ht ⊢
    have h1 : t ≠ s.nftCounter.getD 0 := by omega
    simp only [if_neg h1]
    exact hub t (by omega)

/-- The post-state of a successful burn satisfies the NFT bookkeeping
invariant. -/
theorem nftInvariant_burn_aux (s : TokenState) (fr : Addr) (tid : Nat)
    (hinv : NftInvariant s) (hown : s.nftOwner tid = some fr) :
    NftInvariant { s with
      nftOwner := fun t => if t = tid then none else s.nftOwner t,
      nftUri := fun t => if t = tid then none else s.nftUri t,
      nftApproved := fun t => if t = tid then none else s.nftApproved t,
      nftBalance := fun a => if a = fr
        then some ((s.nftBalance fr).getD 0 - 1) else s.nftBalance a } := by
  obtain ⟨hbal, hub⟩ := hinv
  have htid : tid < s.nftCounter.getD 0 := owner_lt_counter s fr tid hub hown
  have hfrpos : 0 < ownedCount s fr := ownedCount_pos s fr tid hown htid
  constructor
  · intro a
    have hset := countP_range_set s.nftOwner tid none a
      (s.nftCounter.getD 0) htid
    rw [hown] at hset
    have hcount : ownedCount { s with
        nftOwner := fun t => if t = tid then none else s.nftOwner t,
        nftUri := fun t => if t = tid then none else s.nftUri t,
        nftApproved := fun t => if t = tid then none else s.nftApproved t,
        nftBalance := fun a => if a = fr
          then some ((s.nftBalance fr).getD 0 - 1) else s.nftBalance a } a
        + (if fr = a then 1 else 0) = ownedCount s a := by
      unfold ownedCount
      simpa [Option.some.injEq] using hset
    have hb1 := hbal a
    by_cases haf : a = fr
    · have hfa : fr = a := Eq.symm haf
      have hposa : 0 < ownedCount s a := hfa ▸ hfrpos
      have hbalT : NftImpl.balance_of { s with
          nftOwner := fun t => if t = tid then none else s.nftOwner t,
          nftUri := fun t => if t = tid then none else s.nftUri t,
          nftApproved := fun t => if t = tid then none else s.nftApproved t,
          nftBalance := fun a => if a = fr
            then some ((s.nftBalance fr).getD 0 - 1) else s.nftBalance a } a
          = NftImpl.balance_of s a - 1 := by
        simp [NftImpl.balance_of, haf]
      rw [hbalT]
      rw [if_pos hfa] at hcount
      omega
    · have hfa : ¬ fr = a := fun h => haf (Eq.symm h)
      have hbalT : NftImpl.balance_of { s with
          nftOwner := fun t => if t = tid then none else s.nftOwner t,
          nftUri := fun t => if t = tid then none else s.nftUri t,
          nftApproved := fun t => if t = tid then none else s.nftApproved t,
          nftBalance := fun a => if a = fr
            then some ((s.nftBalance fr).getD 0 - 1) else s.nftBalance a } a
          = NftImpl.balance_of s a := by
        simp [NftImpl.balance_of, haf]
      rw [hbalT]
      rw [if_neg hfa] at hcount
      omega
  · intro t ht
    by_cases htn : t = tid
    · simp [htn]
    · simp only [if_neg htn]
      exact hub t ht

/-- Every NFT ledger operation, run through the host boundary, preserves
the bookkeeping invariant. -/
theorem nftInvariant_runNftOp (s : TokenState) (op : NftOp)
    (hinv : NftInvariant s) : NftInvariant (runNftOp s op) := by
  cases op with
  | mint dst uri => exact nftInvariant_mint s dst uri hinv
  | transfer fr dst tid =>
    simp only [runNftOp]
    cases hown : s.nftOwner tid with
    | none =>
      have h : NftImpl.transfer s fr dst tid = .error .NftNotFound := by
        simp [NftImpl.transfer, hown]
      rw [h]
      exact hinv
    | some owner =>
      by_cases hof : owner = fr
      · subst hof
        have h : NftImpl.transfer s owner dst tid
            = .ok (NftImpl.do_transfer s owner dst tid) := by
          simp [NftImpl.transfer, hown]
        rw [h]
        exact nftInvariant_do_transfer s owner dst tid hinv hown
      · have h : NftImpl.transfer s fr dst tid = .error .NftNotOwner := by
          simp [NftImpl.transfer, hown, hof]
        rw [h]
        exact hinv
  | transfer_from spender fr dst tid =>
    simp only [runNftOp]
    cases hown : s.nftOwner tid with
    | none =>
      have h : NftImpl.transfer_from s spender fr dst tid
          = .error .NftNotFound := by
        simp [NftImpl.transfer_from, hown]
      rw [h]
      exact hinv
    | some owner =>
      by_cases hof : owner = fr
      · subst hof
        cases happ : s.nftApproved tid with
        | none =>
          have h : NftImpl.transfer_from s spender owner dst tid
              = .error .NftNotApproved := by
            simp [NftImpl.transfer_from, hown, happ]
          rw [h]
          exact hinv
        | some ap =>
          by_cases hsp : ap = spender
          · subst hsp
            have h : NftImpl.transfer_from s ap owner dst tid
                = .ok (NftImpl.do_transfer
                  { s with nftApproved := fun t =>
                      if t = tid then none else s.nftApproved t }
                  owner dst tid) := by
              simp [NftImpl.transfer_from, hown, happ]
            rw [h]
            exact nftInvariant_do_transfer
              { s with nftApproved := fun t =>
                  if t = tid then none else s.nftApproved t }
              owner dst tid hinv hown
          · have h : NftImpl.transfer_from s spender owner dst tid
                = .error .NftNotApproved := by
              simp [NftImpl.transfer_from, hown, happ, hsp]
            rw [h]
            exact hinv
      · have h : NftImpl.transfer_from s spender fr dst tid
            = .error .NftNotOwner := by
          simp [NftImpl.transfer_from, hown, hof]
        rw [h]
        exact hinv
  | approve owner approved tid =>
    simp only [runNftOp]
    cases hown : s.nftOwner tid with
    | none =>
      have h : NftImpl.approve s owner approved tid = .error .NftNotFound := by
        simp [NftImpl.approve, hown]
      rw [h]
      exact hinv
    | some ow =>
      by_cases hof : ow = owner
      · subst hof
        have h : NftImpl.approve s ow approved tid
            = .ok { s with nftApproved := fun t =>
                if t = tid then some approved else s.nftApproved t } := by
          simp [NftImpl.approve, hown]
        rw [h]
        exact hinv
      · have h : NftImpl.approve s owner approved tid
            = .error .NftNotOwner := by
          simp [NftImpl.approve, hown, hof]
        rw [h]
        exact hinv
  | burn fr tid =>
    simp only [runNftOp]
    cases hown : s.nftOwner tid with
    | none =>
      have h : NftImpl.burn s fr tid = .error .NftNotFound := by
        simp [NftImpl.burn, hown]
      rw [h]
      exact hinv
    | some owner =>
      by_cases hof : owner = fr
      · subst hof
        have h : NftImpl.burn s owner tid = .ok { s with
            nftOwner := fun t => if t = tid then none else s.nftOwner t,
            nftUri := fun t => if t = tid then none else s.nftUri t,
            nftApproved := fun t => if t = tid then none else s.nftApproved t,
            nftBalance := fun a => if a = owner
              then some ((s.nftBalance owner).getD 0 - 1)
              else s.nftBalance a } := by
          simp [NftImpl.burn, hown]
        rw [h]
        exact nftInvariant_burn_aux s owner tid hinv hown
      · have h : NftImpl.burn s fr tid = .error .NftNotOwner := by
          simp [NftImpl.burn, hown, hof]
        rw [h]
        exact hinv

/-- Exactly the mints advance the counter: every other operation, successful
or not, leaves it unchanged. -/
theorem runNftOp_counter (s : TokenState) (op : NftOp) :
    (runNftOp s op).nftCounter.getD 0
      = s.nftCounter.getD 0 + countMints [op] := by
  cases op with
  | mint dst uri =>
    simp [runNftOp, NftImpl.mint, countMints, List.countP_cons]
  | transfer fr dst tid =>
    have hm : countMints [NftOp.transfer fr dst tid] = 0 := rfl
    rw [hm]
    simp only [runNftOp]
    cases hown : s.nftOwner tid with
    | none => simp [NftImpl.transfer, hown, commit]
    | some owner =>
      by_cases hof : owner = fr
      · subst hof
        simp [NftImpl.transfer, hown, commit, NftImpl.do_transfer]
      · simp [NftImpl.transfer, hown, hof, commit]
  | transfer_from spender fr dst tid =>
    have hm : countMints [NftOp.transfer_from spender fr dst tid] = 0 := rfl
    rw [hm]
    simp only [runNftOp]
    cases hown : s.nftOwner tid with
    | none => simp [NftImpl.transfer_from, hown, commit]
    | some owner =>
      by_cases hof : owner = fr
      · subst hof
        cases happ : s.nftApproved tid with
        | none => simp [NftImpl.transfer_from, hown, happ, commit]
        | some ap =>
          by_cases hsp : ap = spender
          · subst hsp
            simp [NftImpl.transfer_from, hown, happ, commit,
              NftImpl.do_transfer]
          · simp [NftImpl.transfer_from, hown, happ, hsp, commit]
      · simp [NftImpl.transfer_from, hown, hof, commit]
  | approve owner approved tid =>
    have hm : countMints [NftOp.approve owner approved tid] = 0 := rfl
    rw [hm]
    simp only [runNftOp]
    cases hown : s.nftOwner tid with
    | none => simp [NftImpl.approve, hown, commit]
    | some ow =>
      by_cases hof : ow = owner
      · subst hof
        simp [NftImpl.approve, hown, commit]
      · simp [NftImpl.approve, hown, hof, commit]
  | burn fr tid =>
    have hm : countMints [NftOp.burn fr tid] = 0 := rfl
    rw [hm]
    simp only [runNftOp]
    cases hown : s.nftOwner tid with
    | none => simp [NftImpl.burn, hown, commit]
    | some owner =>
      by_cases hof : owner = fr
      · subst hof
        simp [NftImpl.burn, hown, commit]
      · simp [NftImpl.burn, hown, hof, commit]

/-- The bookkeeping invariant holds in empty (freshly initialized) storage. -/
theorem emptyState_nftInvariant : NftInvariant emptyState := by
  constructor
  · intro a
    simp [NftImpl.balance_of, ownedCount, emptyState]
  · intro t ht
    rfl

/-- C2: running any sequence of NFT operations from a state satisfying the
bookkeeping invariant, at every point each address's stored balance equals
the number of token ids it currently owns (and no token at or above the
counter exists), while `total_supply` equals the initial counter plus the
number of mints performed, unaffected by burns. -/
theorem nft_ledger_invariant (s : TokenState) (ops : List NftOp)
    (hinv : NftInvariant s) :
    NftInvariant (runNftOps s ops) ∧
    NftImpl.total_supply (runNftOps s ops)
      = NftImpl.total_supply s + countMints ops ∧
    (∀ a, NftImpl.balance_of (runNftOps s ops) a
      = ownedCount (runNftOps s ops) a) ∧
    (∀ t, NftImpl.total_supply (runNftOps s ops) ≤ t →
      (runNftOps s ops).nftOwner t = none) := by
  induction ops generalizing s with
  | nil =>
    refine ⟨hinv, by simp [runNftOps, countMints, NftImpl.total_supply],
      hinv.1, ?_⟩
    intro t ht
    exact hinv.2 t ht
  | cons op rest ih =>
    have h1 := nftInvariant_runNftOp s op hinv
    have hc := runNftOp_counter s op
    obtain ⟨ha, hb, hcc, hd⟩ := ih (runNftOp s op) h1
    have hrun : runNftOps s (op :: rest) = runNftOps (runNftOp s op) rest := by
      simp [runNftOps]
    rw [hrun]
    refine ⟨ha, ?_, hcc, hd⟩
    have hcm : countMints (op :: rest) = countMints [op] + countMints rest := by
      simp only [countMints, List.countP_cons, List.countP_nil]
      omega
    simp only [NftImpl.total_supply] at hb hc ⊢
    omega

/-- Witness for C2: mint, transfer, burn, mint from fresh storage; the
counter ends at 2, the number of mints, despite the burn. -/
theorem nft_ledger_invariant_witness :
    NftImpl.total_supply (runNftOps emptyState
        [NftOp.mint 1 "ipfs://a", NftOp.transfer 1 2 0, NftOp.burn 2 0,
         NftOp.mint 3 "ipfs://b"])
      = NftImpl.total_supply emptyState + countMints
        [NftOp.mint 1 "ipfs://a", NftOp.transfer 1 2 0, NftOp.burn 2 0,
         NftOp.mint 3 "ipfs://b"] :=
  (nft_ledger_invariant emptyState
    [NftOp.mint 1 "ipfs://a", NftOp.transfer 1 2 0, NftOp.burn 2 0,
     NftOp.mint 3 "ipfs://b"] emptyState_nftInvariant).2.1
